import Mathlib

/-!
Verification of the delimited-text parsing and tabular-summary pipeline of
ChatWithData (src/script.js). The JavaScript functions parseCSV,
displayDataAnalysis and generateCharts are shallowly embedded below as
executable Lean definitions over List Char / String, with JavaScript numbers
modelled by the exact type JSNum (NaN, the two infinities, and finite values
as rationals). Binary64 rounding is observable in exactly one place, the
70-percent threshold of the column classifier, and is modelled there by
exact correctly-rounded arithmetic over the rationals (jsTimes07); every
other verified property is independent of rounding, as noted at each point
where a double occurs in the source.
-/

/-! ### JavaScript string primitives -/

/-- Whitespace for the purposes of String.prototype.trim, the leading-space
skip of parseFloat, and the trimming step of ToNumber: space, tab, line feed,
carriage return, vertical tab, form feed and no-break space (the exotic
Unicode space separators are not needed for any input considered here). -/
def isJsWs (c : Char) : Bool :=
  c = ' ' || c = '\t' || c = '\n' || c = '\r' || c = '\x0b' || c = '\x0c' || c = ' '

/-- JavaScript text.split(sep) for a single-character separator: splitting
keeps empty segments, and splitting the empty string yields one empty
segment. -/
def splitOnChar (c : Char) : List Char → List (List Char)
  | [] => [[]]
  | x :: xs =>
    match splitOnChar c xs with
    | [] => [[]]
    | r :: rs => if x = c then [] :: r :: rs else (x :: r) :: rs

/-- Drop JavaScript whitespace from both ends of a character list
(String.prototype.trim). -/
def trimChars (l : List Char) : List Char :=
  ((l.dropWhile isJsWs).reverse.dropWhile isJsWs).reverse

/-- String.prototype.trim on a Lean string. -/
def jsTrim (s : String) : String :=
  ⟨trimChars s.data⟩

/-- text.split(c) on a Lean string. -/
def jsSplit (c : Char) (s : String) : List String :=
  (splitOnChar c s.data).map (fun l => ⟨l⟩)

/-! ### JavaScript numbers

JSNum is the exact value space of a JavaScript number as far as the verified
properties need it: NaN, plus and minus infinity, and finite values carried
as exact rationals. The claims verified below depend only on NaN-ness,
finiteness and small integer values, never on binary64 rounding, so the
rational model is faithful. -/

/-- A JavaScript number: NaN, an infinity, or a finite value. -/
inductive JSNum where
  | nan : JSNum
  | posInf : JSNum
  | negInf : JSNum
  | fin (q : ℚ) : JSNum
deriving DecidableEq

/-- isNaN on an already-converted number. -/
def jsIsNaN : JSNum → Bool
  | .nan => true
  | _ => false

/-- Finiteness of a JavaScript number (neither NaN nor an infinity). -/
def jsIsFiniteNum : JSNum → Bool
  | .fin _ => true
  | _ => false

/-- Falsiness of a JavaScript number: NaN and zero (and minus zero, which the
rational model identifies with zero) are falsy. -/
def jsFalsy : JSNum → Bool
  | .nan => true
  | .fin q => q = 0
  | _ => false

/-- Value of a list of decimal digit characters. -/
def digitsToNat (ds : List Char) : Nat :=
  ds.foldl (fun n c => 10 * n + (c.toNat - 48)) 0

/-- Optional leading sign; returns (isNegative, rest). -/
def parseSign : List Char → Bool × List Char
  | '+' :: r => (false, r)
  | '-' :: r => (true, r)
  | l => (false, l)

/-- The characters of the literal Infinity. -/
def infinityChars : List Char :=
  ['I', 'n', 'f', 'i', 'n', 'i', 't', 'y']

/-- Does the second list start with the first one? -/
def startsWithChars : List Char → List Char → Bool
  | [], _ => true
  | _ :: _, [] => false
  | p :: ps, c :: cs => p = c && startsWithChars ps cs

/-- Exact value of a decimal literal with integer digits, fraction digits and
a base-ten exponent: the digit string scaled by ten to the exponent, written
as one normalized fraction (mkRat keeps every definition kernel-computable). -/
def decValue (intPart fracPart : List Char) (e : Int) : ℚ :=
  match e with
  | .ofNat n =>
    mkRat (digitsToNat (intPart ++ fracPart) * 10 ^ n) (10 ^ fracPart.length)
  | .negSucc n =>
    mkRat (digitsToNat (intPart ++ fracPart)) (10 ^ (fracPart.length + (n + 1)))

/-- Negate when the sign was minus. -/
def applySign (neg : Bool) (q : ℚ) : ℚ :=
  if neg then -q else q

/-- An optional exponent part at the given position, as used by parseFloat:
the exponent marker e or E followed by an optional sign and at least one
digit contributes its value, anything else contributes zero (and the longest
valid literal simply ends before it). -/
def parseExpPart : List Char → Int
  | c :: rest =>
    if c = 'e' ∨ c = 'E' then
      let s := parseSign rest
      let ds := s.2.takeWhile Char.isDigit
      if ds = [] then 0
      else if s.1 then -(digitsToNat ds : Int) else (digitsToNat ds : Int)
    else 0
  | [] => 0

/-- parseFloat on a character list, per ECMA-262: skip leading whitespace,
read an optional sign, then the longest prefix that is the literal Infinity
or a decimal literal (digits, an optional dot with fraction digits, an
optional well-formed exponent); trailing garbage is ignored; if no prefix
parses, the result is NaN. -/
def jsParseFloatChars (l : List Char) : JSNum :=
  let l1 := l.dropWhile isJsWs
  let s := parseSign l1
  if startsWithChars infinityChars s.2 then
    if s.1 then .negInf else .posInf
  else
    let intPart := s.2.takeWhile Char.isDigit
    let l3 := s.2.dropWhile Char.isDigit
    let fp : List Char × List Char :=
      match l3 with
      | '.' :: r => (r.takeWhile Char.isDigit, r.dropWhile Char.isDigit)
      | _ => ([], l3)
    if intPart = [] ∧ fp.1 = [] then .nan
    else .fin (applySign s.1 (decValue intPart fp.1 (parseExpPart fp.2)))

/-- parseFloat on a Lean string. -/
def jsParseFloat (s : String) : JSNum :=
  jsParseFloatChars s.data

/-- Is the character a hexadecimal digit? -/
def isHexDigitChar (c : Char) : Bool :=
  c.isDigit || ('a' ≤ c && c ≤ 'f') || ('A' ≤ c && c ≤ 'F')

/-- Is the character an octal digit? -/
def isOctDigitChar (c : Char) : Bool :=
  '0' ≤ c && c ≤ '7'

/-- Is the character a binary digit? -/
def isBinDigitChar (c : Char) : Bool :=
  c = '0' || c = '1'

/-- Digit value of a hexadecimal digit character. -/
def hexVal (c : Char) : Nat :=
  if c.isDigit then c.toNat - 48
  else if 'a' ≤ c then c.toNat - 87
  else c.toNat - 55

/-- Value of a digit list in the given base. -/
def digitsToNatBase (b : Nat) (ds : List Char) : Nat :=
  ds.foldl (fun n c => b * n + hexVal c) 0

/-- A full (entirely consumed) unsigned decimal literal: digits, an optional
dot with optional fraction digits (at least one digit overall), and an
optional complete exponent part; none if any character is left over. -/
def fullDecimalValue (l : List Char) : Option ℚ :=
  let intPart := l.takeWhile Char.isDigit
  let l2 := l.dropWhile Char.isDigit
  let fp : List Char × List Char :=
    match l2 with
    | '.' :: r => (r.takeWhile Char.isDigit, r.dropWhile Char.isDigit)
    | _ => ([], l2)
  if intPart = [] ∧ fp.1 = [] then none
  else
    match fp.2 with
    | [] => some (decValue intPart fp.1 0)
    | c :: rest =>
      if c = 'e' ∨ c = 'E' then
        let s := parseSign rest
        let ds := s.2.takeWhile Char.isDigit
        let r3 := s.2.dropWhile Char.isDigit
        if ds = [] ∨ r3 ≠ [] then none
        else some (decValue intPart fp.1
          (if s.1 then -(digitsToNat ds : Int) else (digitsToNat ds : Int)))
      else none

/-- A signed decimal literal or signed Infinity covering the whole list, as
in ToNumber; NaN when the list is not entirely such a literal. -/
def signedDecimalOrInf (t : List Char) : JSNum :=
  let s := parseSign t
  if s.2 = infinityChars then
    if s.1 then .negInf else .posInf
  else
    match fullDecimalValue s.2 with
    | some q => .fin (applySign s.1 q)
    | none => .nan

/-- ToNumber on a string (the coercion performed by the global isFinite), per
ECMA-262 StringToNumber: trim whitespace from both ends; the empty remainder
is zero; otherwise the whole remainder must be a signed decimal literal,
signed Infinity, or an unsigned hexadecimal, octal or binary literal, and
anything else is NaN. -/
def jsToNumberChars (l : List Char) : JSNum :=
  match trimChars l with
  | [] => .fin 0
  | '0' :: c :: ds =>
    if (c = 'x' ∨ c = 'X') ∧ ds ≠ [] ∧ ds.all isHexDigitChar then
      .fin (digitsToNatBase 16 ds)
    else if (c = 'o' ∨ c = 'O') ∧ ds ≠ [] ∧ ds.all isOctDigitChar then
      .fin (digitsToNatBase 8 ds)
    else if (c = 'b' ∨ c = 'B') ∧ ds ≠ [] ∧ ds.all isBinDigitChar then
      .fin (digitsToNatBase 2 ds)
    else signedDecimalOrInf ('0' :: c :: ds)
  | t => signedDecimalOrInf t

/-- ToNumber on a Lean string. -/
def jsToNumber (s : String) : JSNum :=
  jsToNumberChars s.data

/-! ### The CSV parser (src/script.js, parseCSV, lines 123-163) -/

/-- The parsed table returned by parseCSV: the header fields and the data
rows. -/
structure ParsedTable where
  headers : List String
  data : List (List String)
deriving DecidableEq

/-- The header-field cleanup of line 130 is h.trim() followed by a global
replace of a regex matching a double quote anchored at the start or a double
quote anchored at the end: one leading quote is removed if present and one
trailing quote of the remainder is removed if present, independently of each
other; interior characters are untouched. This definition removes one
leading double quote when present. -/
def stripLeadingQuote (d : List Char) : List Char :=
  if d.head? = some '"' then d.tail else d

/-- Remove one trailing double quote when present. -/
def stripTrailingQuote (d : List Char) : List Char :=
  if d.getLast? = some '"' then d.dropLast else d

/-- The combined cleanup of line 130: leading strip, then trailing strip of
the remainder. -/
def stripHeaderQuotes (s : String) : String :=
  ⟨stripTrailingQuote (stripLeadingQuote s.data)⟩

/-- One header field: trim, then strip anchored quotes (line 130). -/
def parseHeaderField (h : String) : String :=
  stripHeaderQuotes (jsTrim h)

/-- Trim a field buffer into a string, as currentField.trim() on push. -/
def jsTrimList (cur : List Char) : String :=
  ⟨trimChars cur⟩

/-- The character scan of a data line (lines 140-152): a double quote toggles
the insideQuotes flag and is never appended; a comma while the flag is false
pushes the current field (trimmed) and resets the buffer; any other
character, including a comma while the flag is true, is appended; the final
field is pushed (trimmed) unconditionally when the characters run out. -/
def scanFields : List Char → Bool → List Char → List String
  | [], _, cur => [jsTrimList cur]
  | c :: rest, q, cur =>
    if c = '"' then scanFields rest (!q) cur
    else if c = ',' ∧ q = false then jsTrimList cur :: scanFields rest q []
    else scanFields rest q (cur ++ [c])

/-- Split one data line into fields; the insideQuotes flag starts false and
the buffer starts empty on every line (lines 136-138). -/
def parseLine (line : String) : List String :=
  scanFields line.data false []

/-- Normalize a row to the header length (lines 154-159): first pad on the
right with empty strings while shorter than the header (the while loop),
then truncate with slice(0, headers.length). -/
def padTruncate (row : List String) (n : Nat) : List String :=
  (row ++ List.replicate (n - row.length) "").take n

/-- The surviving lines of the input: split on the newline character and
discard lines that are empty after trimming (line 124). -/
def nonBlankLines (text : String) : List String :=
  (jsSplit '\n' text).filter (fun l => jsTrim l ≠ "")

/-- parseCSV (lines 123-163): fail on an input with no non-blank lines;
otherwise the first surviving line gives the headers (split on commas, each
field trimmed and quote-stripped) and every later surviving line is scanned
into fields and normalized to the header length. -/
def parseCSV (text : String) : Except String ParsedTable :=
  match nonBlankLines text with
  | [] => .error "CSV file is empty"
  | headerLine :: rest =>
    let headers := (jsSplit ',' headerLine).map parseHeaderField
    let data := rest.map (fun line => padTruncate (parseLine line) headers.length)
    .ok ⟨headers, data⟩

/-! ### Numeric-column classification (src/script.js, generateCharts, lines 288-304) -/

/-- The numeric-cell test of line 296, value && !isNaN(parseFloat(value)) &&
isFinite(value): the cell string must be truthy (non-empty), parseFloat must
find a numeric prefix, and the global isFinite must see a finite number
after coercing the entire string with ToNumber. -/
def isNumericCell (value : String) : Bool :=
  !(value == "") && !(jsIsNaN (jsParseFloat value)) && jsIsFiniteNum (jsToNumber value)

/-- The sample size of line 292, Math.min(100, data.length). -/
def sampleSize (data : List (List String)) : Nat :=
  min 100 data.length

/-- The count of numeric-looking cells among the first sampleSize rows of the
given column (lines 291-299). Out-of-range access data[i][index] yields
undefined in JavaScript, which fails the truthiness test exactly as the
default empty string does here. -/
def numericCount (data : List (List String)) (idx : Nat) : Nat :=
  ((data.take (sampleSize data)).filter (fun row => isNumericCell (row.getD idx ""))).length

/-- The integer significand of the binary64 number denoted by the literal
0.7 in the source: that double is exactly double07 / 2^52 (slightly below
the rational seven tenths). -/
def double07 : Nat := 3152519739159347

/-- Bit length of a natural number, by fuel-bounded structural recursion;
the fuel of 64 covers every number below 2^64, far above anything the
classifier produces. -/
def bitLenAux : Nat → Nat → Nat
  | 0, _ => 0
  | fuel + 1, n => if n = 0 then 0 else bitLenAux fuel (n / 2) + 1

/-- Bit length of a natural number below 2^64. -/
def bitLen (n : Nat) : Nat := bitLenAux 64 n

/-- Round x / 2^j to the nearest integer, ties to even. -/
def roundEvenShift (x j : Nat) : Nat :=
  if j = 0 then x
  else
    let fl := x / 2 ^ j
    let rem := x % 2 ^ j
    let half := 2 ^ (j - 1)
    if rem < half then fl
    else if half < rem then fl + 1
    else if fl % 2 = 0 then fl else fl + 1

/-- The exact rational value of the binary64 product sampleSize * 0.7 as
line 301 computes it: the sample size (an integer at most 100, exact in
binary64) times the double 0.7 gives the exact rational n * double07 / 2^52,
which IEEE 754 multiplication rounds correctly to 53 significant bits,
nearest, ties to even; for every n up to 100 the product lies in the normal
range, so significand rounding is the whole story. -/
def jsTimes07 (n : Nat) : ℚ :=
  mkRat (roundEvenShift (n * double07) (bitLen (n * double07) - 53)
    * 2 ^ (bitLen (n * double07) - 53)) (2 ^ 52)

/-- The classification test of line 301, numericCount > sampleSize * 0.7:
the integer count (at most 100, exact in binary64) compared against the
correctly rounded double product. The rounding is observable: at sample size
90 the double product is 36 * 2^-53 below the exact seven-tenths value 63
(more than half an ulp), so it rounds down and a count of exactly 63 of 90
classifies Numeric, while at every other sample size up to the cap of 100
the test agrees with the exact strict-70-percent rule. -/
def isNumericColumn (data : List (List String)) (idx : Nat) : Bool :=
  decide (jsTimes07 (sampleSize data) < mkRat (numericCount data idx) 1)

/-- The numeric columns in header order as (index, header) pairs
(lines 288-304). -/
def numericColumns (data : List (List String)) (headers : List String) : List (Nat × String) :=
  headers.enum.filter (fun p => isNumericColumn data p.1)

/-! ### The chart value series (line 310) and downsampling (lines 324-337) -/

/-- The JavaScript idiom x || 0 on a number: NaN and zero are falsy and give
the default zero, every other number is kept. -/
def jsOrZero (x : JSNum) : JSNum :=
  if jsFalsy x then .fin 0 else x

/-- The unfiltered series of line 310: every row's cell parsed with
parseFloat, defaulted to zero when falsy. -/
def seriesRaw (data : List (List String)) (idx : Nat) : List JSNum :=
  data.map (fun row => jsOrZero (jsParseFloat (row.getD idx "")))

/-- The series of line 310 including the final filter(v => !isNaN(v)). -/
def series (data : List (List String)) (idx : Nat) : List JSNum :=
  (seriesRaw data idx).filter (fun v => !(jsIsNaN v))

/-- The sampling stride of line 330, Math.ceil(values.length / 50). -/
def chartStep (len : Nat) : Nat :=
  (len + 49) / 50

/-- The loop indices of lines 333-336, i = 0, step, 2*step, ... while
i < len: exactly the first ceil(len/step) multiples of the step. -/
def strideIndices (len step : Nat) : List Nat :=
  (List.range ((len + step - 1) / step)).map (fun k => k * step)

/-- The displayed values (lines 325-337): series unchanged when at most 50
points, otherwise the values at the stride indices. -/
def displayValues (values : List JSNum) : List JSNum :=
  if values.length > 50 then
    (strideIndices values.length (chartStep values.length)).map (fun i => values.getD i (.fin 0))
  else values

/-- The displayed labels (lines 326-336): the 1-based original position of
each displayed point, rendered with a leading hash mark. -/
def displayLabels (values : List JSNum) : List String :=
  if values.length > 50 then
    (strideIndices values.length (chartStep values.length)).map
      (fun i => "#" ++ toString (i + 1))
  else (List.range values.length).map (fun i => "#" ++ toString (i + 1))

/-! ### Category frequency counting (src/script.js, lines 375-396) -/

/-- The category key of a row (line 389), row[categoryIndex] || 'Unknown':
an empty (falsy) cell, or an out-of-range access, counts under the literal
Unknown bucket. -/
def categoryOf (idx : Nat) (row : List String) : String :=
  let v := row.getD idx ""
  if v = "" then "Unknown" else v

/-- One counting step of line 390, categoryCounts[category] =
(categoryCounts[category] || 0) + 1, on an association list kept in property
insertion order: an existing key is bumped in place, a new key is appended. -/
def bump : List (String × Nat) → String → List (String × Nat)
  | [], k => [(k, 1)]
  | (k0, c0) :: rest, k =>
    if k0 = k then (k0, c0 + 1) :: rest else (k0, c0) :: bump rest k

/-- The frequency table of lines 387-391 in property insertion order. -/
def categoryCounts (data : List (List String)) (idx : Nat) : List (String × Nat) :=
  data.foldl (fun m row => bump m (categoryOf idx row)) []

/-- Is the string a canonical array-index property key per ECMA-262: a
canonical decimal integer (no leading zero except the string 0 itself)
whose value is below 2^32 - 1? Object.entries enumerates such keys first,
in ascending numeric order, before the other string keys in insertion
order. -/
def isArrayIndexKey (s : String) : Bool :=
  match s.data with
  | [] => false
  | c :: cs =>
    (c :: cs).all Char.isDigit && decide (c = '0' → cs = [])
      && decide (digitsToNat (c :: cs) < 4294967295)

/-- Insert into a list ascending by the given numeric key. -/
def insertAscBy (key : String × Nat → Nat) (x : String × Nat) :
    List (String × Nat) → List (String × Nat)
  | [] => [x]
  | y :: ys => if key y < key x then y :: insertAscBy key x ys else x :: y :: ys

/-- Sort ascending by the given numeric key (the keys are distinct here, so
stability is irrelevant). -/
def sortAscBy (key : String × Nat → Nat) : List (String × Nat) → List (String × Nat)
  | [] => []
  | x :: xs => insertAscBy key x (sortAscBy key xs)

/-- The enumeration order of Object.entries on the frequency table
(line 394): entries whose key is a canonical array index come first, in
ascending numeric order, then the remaining entries in insertion order. -/
def jsEntries (m : List (String × Nat)) : List (String × Nat) :=
  sortAscBy (fun p => digitsToNat p.1.data) (m.filter (fun p => isArrayIndexKey p.1))
    ++ m.filter (fun p => !(isArrayIndexKey p.1))

/-- Stable insertion for the descending-by-count sort: an element entering
later in enumeration order goes below every earlier element with a strictly
greater count and above the first element with a smaller-or-equal count,
hence below nothing equal that preceded it. -/
def insertDescStable (x : String × Nat) : List (String × Nat) → List (String × Nat)
  | [] => [x]
  | y :: ys => if x.2 < y.2 then y :: insertDescStable x ys else x :: y :: ys

/-- The stable sort of line 395, Array.prototype.sort with the comparator
(a, b) => b[1] - a[1]: descending by count, equal counts keeping their
enumeration order (the ECMAScript sort is stable, and a stable sort under a
fixed total preorder has a unique result, so this insertion sort models it
exactly). -/
def sortByCountDesc : List (String × Nat) → List (String × Nat)
  | [] => []
  | x :: xs => insertDescStable x (sortByCountDesc xs)

/-- The top categories of lines 394-396: Object.entries of the frequency
table, stably sorted by descending count, first ten kept. -/
def topCategories (data : List (List String)) (idx : Nat) : List (String × Nat) :=
  (sortByCountDesc (jsEntries (categoryCounts data idx))).take 10

/-- The category cells of the table in row order. -/
def cats (data : List (List String)) (idx : Nat) : List String :=
  data.map (categoryOf idx)

/-- Index of the first occurrence of a key in a list (length when absent). -/
def fstOcc : List String → String → Nat
  | [], _ => 0
  | c :: cs, k => if c = k then 0 else fstOcc cs k + 1

/-- The category column choice of lines 377-384: the first column where more
than half of the rows have a non-empty trimmed cell, column zero when none
qualifies. The comparison data.length * 0.5 is exact in binary64, so the
rational comparison is faithful. -/
def categoryIndex (data : List (List String)) (headers : List String) : Nat :=
  match headers.enum.find? (fun p =>
      decide (mkRat data.length 2
        < mkRat (data.filter (fun row => jsTrim (row.getD p.1 "") ≠ "")).length 1)) with
  | some p => p.1
  | none => 0

/-! ### Chart generation and the analysis step (lines 166-170, 279-443) -/

/-- The chart series handed to the renderer: a line chart per numeric column
with its displayed values and labels, or a bar chart of top categories. The
HTML assembly around them is presentation and is not modelled. -/
inductive ChartSpec where
  | line (header : String) (values : List JSNum) (labels : List String) : ChartSpec
  | bar (header : String) (categories : List (String × Nat)) : ChartSpec
deriving DecidableEq

/-- generateCharts (lines 279-443), reduced to the chart data it draws:
nothing on an empty table (line 280); otherwise a line chart for each of the
first two numeric columns whose series is non-empty (lines 307-371), or,
when no column is numeric, a bar chart of the top categories of the chosen
category column when any exist (lines 375-439). -/
def generateCharts (data : List (List String)) (headers : List String) :
    Option (List ChartSpec) :=
  if data.length = 0 ∨ headers.length = 0 then none
  else
    let ncols := numericColumns data headers
    if ncols.length > 0 then
      some ((ncols.take 2).filterMap (fun p =>
        let vals := series data p.1
        if vals.length > 0 then
          some (.line p.2 (displayValues vals) (displayLabels vals))
        else none))
    else
      let cIdx := categoryIndex data headers
      let sorted := topCategories data cIdx
      if sorted.length > 0 then some [.bar (headers.getD cIdx "") sorted]
      else some []

/-- The mutable state the upload path keeps: file name, parsed rows, parsed
headers (script.js lines 12-14); displayDataAnalysis reads but never writes
it. -/
structure AppState where
  uploadedFileName : Option String
  csvData : Option (List (List String))
  csvHeaders : Option (List String)
deriving DecidableEq

/-- What the analysis step appends to the transcript: either a plain system
message, or the analysis report with its summary numbers, header list, first
rows preview and optional charts. -/
inductive AnalysisOutput where
  | systemMessage (text : String) : AnalysisOutput
  | analysisReport (rowCount colCount : Nat) (headers : List String)
      (preview : List (List String)) (charts : Option (List ChartSpec)) : AnalysisOutput
deriving DecidableEq

/-- Is the output the analysis report? -/
def isReport : AnalysisOutput → Bool
  | .analysisReport _ _ _ _ _ => true
  | _ => false

/-- displayDataAnalysis (lines 166-251): on a missing or empty table it
emits only the system message and returns (the guard of lines 167-170);
otherwise it renders the report with row count, column count, headers, the
first five rows and the generated charts. The state is returned unchanged in
both branches, mirroring that the function never assigns the module
variables. -/
def displayDataAnalysis (st : AppState) (data : Option (List (List String)))
    (headers : List String) : AppState × List AnalysisOutput :=
  match data with
  | none => (st, [.systemMessage "Data is empty, cannot perform analysis."])
  | some d =>
    if d.length = 0 then (st, [.systemMessage "Data is empty, cannot perform analysis."])
    else (st, [.analysisReport d.length headers.length headers (d.take 5)
      (generateCharts d headers)])

/-! ### Helper lemmas -/

/-- jsIsNaN decides being the NaN constructor. -/
theorem jsIsNaN_eq_false_iff (x : JSNum) : jsIsNaN x = false ↔ x ≠ JSNum.nan := by
  cases x <;> simp [jsIsNaN]

/-- The zero-defaulted parse of one cell is never NaN. -/
theorem jsIsNaN_jsOrZero (x : JSNum) : jsIsNaN (jsOrZero x) = false := by
  cases x with
  | fin q =>
    by_cases h : q = 0 <;> simp [jsOrZero, jsFalsy, h, jsIsNaN]
  | _ => simp [jsOrZero, jsFalsy, jsIsNaN]

/-- Length of a normalized row. -/
theorem padTruncate_length (fields : List String) (n : Nat) :
    (padTruncate fields n).length = n := by
  simp only [padTruncate, List.length_take, List.length_append, List.length_replicate]
  omega

/-! ### C2: failure exactly on inputs with no non-blank lines -/

/-- C2: parseCSV fails with the empty-input error exactly when no line
survives blank-line filtering; the empty string and a string of blank lines
fail; a header-only input succeeds with zero data rows. -/
theorem c2_empty_input_error :
    (∀ text : String,
      parseCSV text = .error "CSV file is empty" ↔ nonBlankLines text = [])
    ∧ parseCSV "" = .error "CSV file is empty"
    ∧ parseCSV "\n \n\t\n" = .error "CSV file is empty"
    ∧ parseCSV "a,b" = .ok ⟨["a", "b"], []⟩ := by
  refine ⟨?_, rfl, rfl, rfl⟩
  intro text
  unfold parseCSV
  cases h : nonBlankLines text with
  | nil => simp
  | cons a l => simp

/-- Witness for C2 at the empty string. -/
theorem c2_empty_input_error_witness : parseCSV "" = .error "CSV file is empty" :=
  (c2_empty_input_error.1 "").mpr rfl

/-! ### C9: the NaN filter on the chart series removes nothing -/

/-- C9: for every column, the filtered series of line 310 equals the
unfiltered zero-defaulted series, and so it has exactly one entry per data
row. -/
theorem c9_series_filter_is_identity : ∀ (data : List (List String)) (idx : Nat),
    series data idx = seriesRaw data idx ∧ (series data idx).length = data.length := by
  intro data idx
  have h : series data idx = seriesRaw data idx := by
    apply List.filter_eq_self.mpr
    intro v hv
    rcases List.mem_map.mp hv with ⟨row, _, rfl⟩
    simp [jsIsNaN_jsOrZero]
  exact ⟨h, by simp [h, seriesRaw]⟩

/-! ### C10: the empty-table guard of the analysis step -/

/-- C10: on a parsed table with zero data rows (or a missing table) the
analysis step emits only the system message about empty data, produces no
report (hence no summary, preview or charts), and leaves the stored state
unchanged. -/
theorem c10_empty_table_analysis : ∀ (st : AppState) (headers : List String),
    displayDataAnalysis st (some []) headers
      = (st, [.systemMessage "Data is empty, cannot perform analysis."])
    ∧ displayDataAnalysis st none headers
      = (st, [.systemMessage "Data is empty, cannot perform analysis."])
    ∧ (∀ out ∈ (displayDataAnalysis st (some []) headers).2, isReport out = false)
    ∧ (displayDataAnalysis st (some []) headers).1 = st := by
  intro st headers
  refine ⟨rfl, rfl, ?_, rfl⟩
  intro out hout
  simp [displayDataAnalysis] at hout
  subst hout
  rfl

/-! ### C3: the simplified quote-toggle scan -/

/-- C3: the per-line field scan follows the simplified quote-toggle rules: a
double quote only toggles the flag and is never appended; a comma outside
quotes pushes the trimmed field and resets the buffer; a comma inside quotes,
or any other character, is appended; the final field is pushed unconditionally
at the end of the line. Consequently the quoted comma of a,b newline "1,2",3
stays inside one field, an unterminated quote swallows the rest of the line
into one field, and the next line scans with a fresh flag. -/
theorem c3_quote_toggle_scan :
    (∀ (rest : List Char) (q : Bool) (cur : List Char),
      scanFields ('"' :: rest) q cur = scanFields rest (!q) cur)
    ∧ (∀ (rest cur : List Char),
      scanFields (',' :: rest) false cur = jsTrimList cur :: scanFields rest false [])
    ∧ (∀ (rest cur : List Char),
      scanFields (',' :: rest) true cur = scanFields rest true (cur ++ [',']))
    ∧ (∀ (c : Char) (rest : List Char) (q : Bool) (cur : List Char),
      c ≠ '"' → ¬(c = ',' ∧ q = false) →
      scanFields (c :: rest) q cur = scanFields rest q (cur ++ [c]))
    ∧ (∀ (q : Bool) (cur : List Char), scanFields [] q cur = [jsTrimList cur])
    ∧ parseCSV "a,b\n\"1,2\",3" = .ok ⟨["a", "b"], [["1,2", "3"]]⟩
    ∧ parseCSV "a,b\nx\"y,z\np,q" = .ok ⟨["a", "b"], [["xy,z", ""], ["p", "q"]]⟩ := by
  refine ⟨?_, ?_, ?_, ?_, fun q cur => rfl, rfl, rfl⟩
  · intro rest q cur
    simp [scanFields]
  · intro rest cur
    simp [scanFields]
  · intro rest cur
    simp [scanFields]
  · intro c rest q cur h1 h2
    rw [scanFields, if_neg h1, if_neg h2]

/-- Witness for C3 on the append branch at a concrete character. -/
theorem c3_quote_toggle_scan_witness :
    scanFields ['x'] false [] = scanFields [] false ([] ++ ['x']) :=
  c3_quote_toggle_scan.2.2.2.1 'x' [] false [] (by decide) (by decide)

/-! ### C4: the numeric-cell test rejects numeric-prefix-only strings -/

/-- C4 counterexample: the cell 3abc is non-empty and parseFloat succeeds on
its numeric prefix with the finite value 3, yet the test of line 296 does not
count it as numeric, because the isFinite conjunct coerces the entire string
and gets NaN. -/
theorem c4_counterexample :
    isNumericCell "3abc" = false ∧ ("3abc" : String) ≠ ""
      ∧ jsParseFloat "3abc" = .fin 3 ∧ jsToNumber "3abc" = .nan := by
  refine ⟨rfl, by decide, by decide, by decide⟩

/-- C4 amended: a sampled cell counts as numeric exactly when it is
non-empty, parseFloat finds a numeric prefix, and the whole string coerces to
a finite number under ToNumber; a numeric-prefix-only cell such as 3abc is
therefore not counted. -/
theorem c4_amended_numeric_cell : ∀ value : String,
    (isNumericCell value = true ↔
      value ≠ "" ∧ jsParseFloat value ≠ .nan ∧ jsIsFiniteNum (jsToNumber value) = true)
    ∧ isNumericCell "3abc" = false := by
  intro value
  refine ⟨?_, rfl⟩
  simp only [isNumericCell, Bool.and_eq_true, Bool.not_eq_true']
  rw [jsIsNaN_eq_false_iff, beq_eq_false_iff_ne, ne_eq]
  tauto

/-- Witness for C4 amended at a concrete numeric cell. -/
theorem c4_amended_numeric_cell_witness :
    ("12" : String) ≠ "" ∧ jsParseFloat "12" ≠ .nan
      ∧ jsIsFiniteNum (jsToNumber "12") = true :=
  ((c4_amended_numeric_cell "12").1).mp rfl

/-! ### C5: header-quote stripping is independent at each end -/

/-- C5 counterexample: a header field with only a leading quote loses it: the
header line quote-a comma b parses to plain a and b, not to a field keeping
the leading quote, contradicting the only-when-both-present reading. -/
theorem c5_counterexample :
    parseCSV "\"a,b" = .ok ⟨["a", "b"], []⟩
      ∧ parseHeaderField "\"a" = "a"
      ∧ (["a", "b"] : List String) ≠ ["\"a", "b"] := by
  refine ⟨rfl, rfl, by decide⟩

/-- C5 amended: after trimming, the header cleanup strips one leading double
quote when present and one trailing double quote of the remainder when
present, each independently of the other (a field with only a leading or
only a trailing quote still loses it); interior content is untouched and not
unescaped. -/
theorem c5_amended_quote_stripping : ∀ s : String,
    (s.data.head? = some '"' → s.data.tail.getLast? = some '"' →
      stripHeaderQuotes s = ⟨s.data.tail.dropLast⟩)
    ∧ (s.data.head? = some '"' → s.data.tail.getLast? ≠ some '"' →
      stripHeaderQuotes s = ⟨s.data.tail⟩)
    ∧ (s.data.head? ≠ some '"' → s.data.getLast? = some '"' →
      stripHeaderQuotes s = ⟨s.data.dropLast⟩)
    ∧ (s.data.head? ≠ some '"' → s.data.getLast? ≠ some '"' →
      stripHeaderQuotes s = s)
    ∧ parseHeaderField s = stripHeaderQuotes (jsTrim s) := by
  intro s
  refine ⟨?_, ?_, ?_, ?_, rfl⟩
  · intro h1 h2
    simp only [stripHeaderQuotes, stripLeadingQuote, stripTrailingQuote]
    rw [if_pos h1, if_pos h2]
  · intro h1 h2
    simp only [stripHeaderQuotes, stripLeadingQuote, stripTrailingQuote]
    rw [if_pos h1, if_neg h2]
  · intro h1 h2
    simp only [stripHeaderQuotes, stripLeadingQuote, stripTrailingQuote]
    rw [if_neg h1, if_pos h2]
  · intro h1 h2
    simp only [stripHeaderQuotes, stripLeadingQuote, stripTrailingQuote]
    rw [if_neg h1, if_neg h2]

/-- Witness for C5 amended: the leading-only branch strips the quote. -/
theorem c5_amended_quote_stripping_witness :
    stripHeaderQuotes "\"a" = ⟨("\"a" : String).data.tail⟩ :=
  (c5_amended_quote_stripping "\"a").2.1 (by decide) (by decide)

/-! ### C1: every parsed row has exactly the header length -/

/-- C1: whenever parseCSV succeeds, every data row has exactly as many cells
as there are headers; the normalization right-pads a short field list with
empty strings and truncates a long one. -/
theorem c1_row_normalization :
    (∀ (text : String) (t : ParsedTable), parseCSV text = .ok t →
      ∀ row ∈ t.data, row.length = t.headers.length)
    ∧ (∀ (fields : List String) (n : Nat),
      (padTruncate fields n).length = n
      ∧ (fields.length ≤ n →
        padTruncate fields n = fields ++ List.replicate (n - fields.length) "")
      ∧ (n ≤ fields.length → padTruncate fields n = fields.take n)) := by
  constructor
  · intro text t heq row hrow
    unfold parseCSV at heq
    cases h : nonBlankLines text with
    | nil => rw [h] at heq; exact absurd heq (by simp)
    | cons headerLine rest =>
      rw [h] at heq
      simp only [Except.ok.injEq] at heq
      subst heq
      simp only at hrow
      rcases List.mem_map.mp hrow with ⟨line, _, rfl⟩
      exact padTruncate_length _ _
  · intro fields n
    refine ⟨padTruncate_length fields n, ?_, ?_⟩
    · intro hle
      unfold padTruncate
      apply List.take_of_length_le
      simp only [List.length_append, List.length_replicate]
      omega
    · intro hle
      unfold padTruncate
      rw [Nat.sub_eq_zero_of_le hle]
      simp

/-- Witness for C1 on a one-short-row input. -/
theorem c1_row_normalization_witness :
    (["c", ""] : List String).length = (ParsedTable.mk ["a", "b"] [["c", ""]]).headers.length :=
  c1_row_normalization.1 "a,b\nc" ⟨["a", "b"], [["c", ""]]⟩ rfl ["c", ""] (by decide)

/-! ### C6: the 70 percent classification threshold -/

/-- A column of ten sampled cells of which eight parse as numbers. -/
def eightOfTenTable : List (List String) :=
  [["1"], ["2"], ["3"], ["4"], ["5"], ["6"], ["7"], ["8"], ["x"], ["y"]]

/-- A column of ten sampled cells of which seven parse as numbers. -/
def sevenOfTenTable : List (List String) :=
  [["1"], ["2"], ["3"], ["4"], ["5"], ["6"], ["7"], ["x"], ["y"], ["z"]]

/-- A one-column table of 90 rows of which the first 63 hold numeric cells:
exactly seventy percent of the sample. -/
def ninetyRowTable : List (List String) :=
  List.replicate 63 ["1"] ++ List.replicate 27 ["x"]

set_option maxRecDepth 100000 in
set_option maxHeartbeats 1000000 in
/-- The classifier against the rounded double threshold, characterized over
every reachable pair of sample size (at most the cap of 100) and count (at
most the sample size): it is the exact strict-70-percent rule except at
sample size 90, where the rounded product falls below 63 and a count of
exactly seven tenths already passes. -/
theorem jsTimes07_spec : ∀ n, n ≤ 100 → ∀ c, c ≤ n →
    ((jsTimes07 n < mkRat c 1) ↔
      (10 * c > 7 * n ∨ (n = 90 ∧ 10 * c = 7 * n))) := by decide

set_option maxRecDepth 100000 in
/-- C6 counterexample: on the 90-row table with 63 numeric cells the program
classifies the column Numeric although 63 does not strictly exceed 0.7 times
the 90 sampled rows: the binary64 product 90 * 0.7 lies 36 * 2^-53 below 63,
more than half an ulp, so it rounds down below 63 and the comparison of
line 301 passes. -/
theorem c6_counterexample :
    sampleSize ninetyRowTable = 90
    ∧ numericCount ninetyRowTable 0 = 63
    ∧ isNumericColumn ninetyRowTable 0 = true
    ∧ ¬((numericCount ninetyRowTable 0 : ℚ)
      > (sampleSize ninetyRowTable : ℚ) * 0.7)
    ∧ jsTimes07 90 < mkRat 63 1 := by
  have h1 : sampleSize ninetyRowTable = 90 := by decide
  have h2 : numericCount ninetyRowTable 0 = 63 := by decide
  refine ⟨h1, h2, by decide, ?_, by decide⟩
  rw [h1, h2]
  norm_num

set_option maxRecDepth 100000 in
/-- C6 amended: over the sample of the first min(100, rowCount) rows, a
column is classified Numeric exactly when ten times the numeric-cell count
exceeds seven times the sample size, or the sample size is 90 and the count
is exactly 63 (seven tenths): the comparison of line 301 is against the
binary64 product sampleSize * 0.7, which agrees with the exact rule at every
sample size up to the cap except 90, where it rounds below 63. Eight of ten
sampled numeric cells still classify the column Numeric, seven of ten still
do not. -/
theorem c6_amended_threshold :
    (∀ (data : List (List String)) (idx : Nat),
      (isNumericColumn data idx = true ↔
        (10 * numericCount data idx > 7 * sampleSize data
          ∨ (sampleSize data = 90
            ∧ 10 * numericCount data idx = 7 * sampleSize data))))
    ∧ sampleSize eightOfTenTable = 10 ∧ numericCount eightOfTenTable 0 = 8
    ∧ isNumericColumn eightOfTenTable 0 = true
    ∧ sampleSize sevenOfTenTable = 10 ∧ numericCount sevenOfTenTable 0 = 7
    ∧ isNumericColumn sevenOfTenTable 0 = false := by
  refine ⟨?_, rfl, rfl, by decide, rfl, rfl, by decide⟩
  intro data idx
  have hn : sampleSize data ≤ 100 := Nat.min_le_left 100 data.length
  have hc : numericCount data idx ≤ sampleSize data := by
    unfold numericCount
    calc ((data.take (sampleSize data)).filter
          (fun row => isNumericCell (row.getD idx ""))).length
        ≤ (data.take (sampleSize data)).length := List.length_filter_le _ _
      _ ≤ sampleSize data := by
          rw [List.length_take]
          exact Nat.min_le_left _ _
  rw [isNumericColumn, decide_eq_true_iff]
  exact jsTimes07_spec (sampleSize data) hn (numericCount data idx) hc

set_option maxRecDepth 100000 in
/-- Witness for C6 amended at the eight-of-ten table. -/
theorem c6_amended_threshold_witness :
    10 * numericCount eightOfTenTable 0 > 7 * sampleSize eightOfTenTable
    ∨ (sampleSize eightOfTenTable = 90
      ∧ 10 * numericCount eightOfTenTable 0 = 7 * sampleSize eightOfTenTable) :=
  (c6_amended_threshold.1 eightOfTenTable 0).mp (by decide)

/-! ### C7: fixed-stride downsampling -/

/-- The stride is positive for series longer than 50. -/
theorem chartStep_pos {n : Nat} (hn : 50 < n) : 0 < chartStep n := by
  unfold chartStep
  have h1 := Nat.div_add_mod (n + 49) 50
  have h2 : (n + 49) % 50 < 50 := Nat.mod_lt _ (by norm_num)
  omega

/-- A series longer than 50 is covered by at most 50 stride picks. -/
theorem strideCount_le_50 {n : Nat} (hn : 50 < n) :
    (n + chartStep n - 1) / chartStep n ≤ 50 := by
  have hstep : 0 < chartStep n := chartStep_pos hn
  have hle : n ≤ 50 * chartStep n := by
    unfold chartStep
    have h1 := Nat.div_add_mod (n + 49) 50
    have h2 : (n + 49) % 50 < 50 := Nat.mod_lt _ (by norm_num)
    omega
  have h3 := Nat.div_add_mod (n + chartStep n - 1) (chartStep n)
  have h4 : (n + chartStep n - 1) % chartStep n < chartStep n := Nat.mod_lt _ hstep
  have h6 : chartStep n * ((n + chartStep n - 1) / chartStep n) < chartStep n * 51 := by
    calc chartStep n * ((n + chartStep n - 1) / chartStep n)
        ≤ n + chartStep n - 1 := by omega
      _ < 51 * chartStep n := by omega
      _ = chartStep n * 51 := Nat.mul_comm 51 (chartStep n)
  have h7 : (n + chartStep n - 1) / chartStep n < 51 := Nat.lt_of_mul_lt_mul_left h6
  omega

/-- Every stride pick lands inside the series. -/
theorem strideIndex_lt {n step k : Nat} (hstep : 0 < step)
    (hk : k < (n + step - 1) / step) : k * step < n := by
  have h8 : ((n + step - 1) / step) * step ≤ n + step - 1 :=
    Nat.div_mul_le_self (n + step - 1) step
  have h7 : (k + 1) * step ≤ ((n + step - 1) / step) * step :=
    Nat.mul_le_mul_right step (by omega)
  have h9 : (k + 1) * step ≤ n + step - 1 := le_trans h7 h8
  have h10 : k * step + step ≤ n + step - 1 := by
    rw [← Nat.succ_mul]; exact h9
  have hn1 : 1 ≤ n := by
    have hq1 : 1 ≤ (n + step - 1) / step := by omega
    have := le_trans (Nat.mul_le_mul_right step hq1) h8
    omega
  have h11 : k * step + step ≤ n - 1 + step := by
    have heq : n + step - 1 = n - 1 + step := by omega
    rw [heq] at h10
    exact h10
  have h12 : k * step ≤ n - 1 := Nat.le_of_add_le_add_right h11
  omega

/-- Element selection into a mapped range. -/
theorem getD_map_range {α : Type} (f : Nat → α) {n k : Nat} (d : α) (hk : k < n) :
    ((List.range n).map f).getD k d = f k := by
  rw [List.getD_eq_getElem?_getD, List.getElem?_map, List.getElem?_range hk]
  rfl

/-- C7: a series longer than 50 points is downsampled at the fixed stride
ceil(length / 50) starting from the first element: the picked points number
at most 50, the point at display position k is the original element at index
k * stride (so original order is preserved), and its label is the hash mark
with the original 1-based position; a series of at most 50 points is left
unchanged with labels 1..length; a 120-point series uses stride 3. -/
theorem c7_fixed_stride_downsampling :
    (∀ values : List JSNum, values.length > 50 →
      chartStep values.length = (values.length + 49) / 50
      ∧ (displayValues values).length ≤ 50
      ∧ (displayLabels values).length = (displayValues values).length
      ∧ ∀ k, k < (displayValues values).length →
          k * chartStep values.length < values.length
          ∧ (displayValues values).getD k (.fin 0)
            = values.getD (k * chartStep values.length) (.fin 0)
          ∧ (displayLabels values).getD k ""
            = "#" ++ toString (k * chartStep values.length + 1))
    ∧ (∀ values : List JSNum, values.length ≤ 50 →
      displayValues values = values
      ∧ displayLabels values
        = (List.range values.length).map (fun i => "#" ++ toString (i + 1)))
    ∧ chartStep 120 = 3 := by
  refine ⟨?_, ?_, rfl⟩
  · intro values hlen
    have hstep : 0 < chartStep values.length := chartStep_pos hlen
    have hdv : displayValues values
        = (List.range ((values.length + chartStep values.length - 1) / chartStep values.length)).map
          (fun k => values.getD (k * chartStep values.length) (.fin 0)) := by
      rw [displayValues, if_pos hlen, strideIndices, List.map_map]
      rfl
    have hdl : displayLabels values
        = (List.range ((values.length + chartStep values.length - 1) / chartStep values.length)).map
          (fun k => "#" ++ toString (k * chartStep values.length + 1)) := by
      rw [displayLabels, if_pos hlen, strideIndices, List.map_map]
      rfl
    have hlength : (displayValues values).length
        = (values.length + chartStep values.length - 1) / chartStep values.length := by
      rw [hdv, List.length_map, List.length_range]
    refine ⟨rfl, ?_, ?_, ?_⟩
    · rw [hlength]; exact strideCount_le_50 hlen
    · rw [hdl, hdv, List.length_map, List.length_map]
    · intro k hk
      rw [hlength] at hk
      refine ⟨strideIndex_lt hstep hk, ?_, ?_⟩
      · rw [hdv, getD_map_range _ _ hk]
      · rw [hdl, getD_map_range _ _ hk]
  · intro values hlen
    constructor
    · rw [displayValues, if_neg (by omega)]
    · rw [displayLabels, if_neg (by omega)]

/-- Witness for C7 at a 51-point series. -/
theorem c7_fixed_stride_downsampling_witness :
    (displayValues (List.replicate 51 (JSNum.fin 0))).length ≤ 50 :=
  (c7_fixed_stride_downsampling.1 (List.replicate 51 (JSNum.fin 0)) (by simp)).2.1

/-! ### C8: category frequency counting and tie order -/

/-- Membership through stable insertion. -/
theorem mem_insertDescStable (x z : String × Nat) (l : List (String × Nat)) :
    z ∈ insertDescStable x l ↔ z = x ∨ z ∈ l := by
  induction l with
  | nil => simp [insertDescStable]
  | cons y ys ih =>
    by_cases h : x.2 < y.2
    · simp only [insertDescStable, if_pos h, List.mem_cons, ih]
      tauto
    · simp only [insertDescStable, if_neg h, List.mem_cons]

/-- Membership through the stable sort. -/
theorem mem_sortByCountDesc (z : String × Nat) (l : List (String × Nat)) :
    z ∈ sortByCountDesc l ↔ z ∈ l := by
  induction l with
  | nil => simp [sortByCountDesc]
  | cons x xs ih =>
    simp only [sortByCountDesc, mem_insertDescStable, ih, List.mem_cons]

/-- Inserting an element that every present element relates to preserves the
sorted-with-stable-ties pairwise shape. -/
theorem insertDescStable_pairwise (R : String × Nat → String × Nat → Prop)
    (x : String × Nat) (l : List (String × Nat))
    (hl : l.Pairwise (fun a b => b.2 < a.2 ∨ (a.2 = b.2 ∧ R a b)))
    (hx : ∀ y ∈ l, R x y) :
    (insertDescStable x l).Pairwise (fun a b => b.2 < a.2 ∨ (a.2 = b.2 ∧ R a b)) := by
  induction l with
  | nil => simp [insertDescStable]
  | cons y ys ih =>
    rcases List.pairwise_cons.mp hl with ⟨hy, hys⟩
    by_cases h : x.2 < y.2
    · rw [insertDescStable, if_pos h]
      refine List.pairwise_cons.mpr ⟨?_, ?_⟩
      · intro z hz
        rcases (mem_insertDescStable x z ys).mp hz with rfl | hzys
        · exact Or.inl h
        · exact hy z hzys
      · exact ih hys (fun y hy => hx y (List.mem_cons_of_mem _ hy))
    · rw [insertDescStable, if_neg h]
      refine List.pairwise_cons.mpr ⟨?_, List.pairwise_cons.mpr ⟨hy, hys⟩⟩
      intro z hz
      rcases List.mem_cons.mp hz with rfl | hzys
      · by_cases hlt : z.2 < x.2
        · exact Or.inl hlt
        · exact Or.inr ⟨by omega, hx z (List.mem_cons_self _ _)⟩
      · rcases hy z hzys with hlt | ⟨heq, _⟩
        · exact Or.inl (by omega)
        · by_cases hlt2 : z.2 < x.2
          · exact Or.inl hlt2
          · exact Or.inr ⟨by omega, hx z (List.mem_cons_of_mem _ hzys)⟩

/-- The stable sort of a list whose enumeration order satisfies R is sorted
descending by count with ties still in R order. -/
theorem sortByCountDesc_pairwise (R : String × Nat → String × Nat → Prop)
    (l : List (String × Nat)) (hl : l.Pairwise R) :
    (sortByCountDesc l).Pairwise (fun a b => b.2 < a.2 ∨ (a.2 = b.2 ∧ R a b)) := by
  induction l with
  | nil => exact List.Pairwise.nil
  | cons x xs ih =>
    rcases List.pairwise_cons.mp hl with ⟨hx, hxs⟩
    rw [sortByCountDesc]
    exact insertDescStable_pairwise R x (sortByCountDesc xs) (ih hxs)
      (fun y hy => hx y ((mem_sortByCountDesc y xs).mp hy))

/-- Bumping a key already present does not change the key sequence. -/
theorem bump_map_fst_of_mem (m : List (String × Nat)) (k : String)
    (h : k ∈ m.map Prod.fst) : (bump m k).map Prod.fst = m.map Prod.fst := by
  induction m with
  | nil => simp at h
  | cons p rest ih =>
    by_cases hk : p.1 = k
    · rw [show bump (p :: rest) k = (p.1, p.2 + 1) :: rest by rw [bump]; rw [if_pos hk]]
      simp
    · rw [show bump (p :: rest) k = (p.1, p.2) :: bump rest k by rw [bump]; rw [if_neg hk]]
      have hmem : k ∈ rest.map Prod.fst := by
        rcases List.mem_map.mp h with ⟨q, hq, hqk⟩
        rcases List.mem_cons.mp hq with rfl | hq2
        · exact absurd hqk hk
        · exact List.mem_map.mpr ⟨q, hq2, hqk⟩
      simp [ih hmem]

/-- Bumping an absent key appends it with count one. -/
theorem bump_of_not_mem (m : List (String × Nat)) (k : String)
    (h : k ∉ m.map Prod.fst) : bump m k = m ++ [(k, 1)] := by
  induction m with
  | nil => rfl
  | cons p rest ih =>
    have hk : p.1 ≠ k := by
      intro hc
      exact h (List.mem_map.mpr ⟨p, List.mem_cons_self _ _, hc⟩)
    rw [show bump (p :: rest) k = (p.1, p.2) :: bump rest k by rw [bump]; rw [if_neg hk]]
    have hrest : k ∉ rest.map Prod.fst := by
      intro hc
      rcases List.mem_map.mp hc with ⟨q, hq, hqk⟩
      exact h (List.mem_map.mpr ⟨q, List.mem_cons_of_mem _ hq, hqk⟩)
    simp [ih hrest]

/-- First occurrence of a member stays put under extension on the right. -/
theorem fstOcc_append_left (l l2 : List String) (k : String) (h : k ∈ l) :
    fstOcc (l ++ l2) k = fstOcc l k := by
  induction l with
  | nil => simp at h
  | cons c cs ih =>
    by_cases hc : c = k
    · simp [fstOcc, hc]
    · rcases List.mem_cons.mp h with rfl | h2
      · exact absurd rfl hc
      · simp [fstOcc, hc, ih h2]

/-- First occurrence of an absent key skips the whole left part. -/
theorem fstOcc_append_not_mem (l l2 : List String) (k : String) (h : k ∉ l) :
    fstOcc (l ++ l2) k = l.length + fstOcc l2 k := by
  induction l with
  | nil => simp
  | cons c cs ih =>
    have hc : c ≠ k := fun hc => h (hc ▸ List.mem_cons_self _ _)
    have h2 : k ∉ cs := fun h2 => h (List.mem_cons_of_mem _ h2)
    show fstOcc (c :: (cs ++ l2)) k = (c :: cs).length + fstOcc l2 k
    simp only [fstOcc, if_neg hc, List.length_cons]
    rw [ih h2]
    omega

/-- A member occurs before the end of the list. -/
theorem fstOcc_lt_length (l : List String) (k : String) (h : k ∈ l) :
    fstOcc l k < l.length := by
  induction l with
  | nil => simp at h
  | cons c cs ih =>
    by_cases hc : c = k
    · simp [fstOcc, hc]
    · rcases List.mem_cons.mp h with rfl | h2
      · exact absurd rfl hc
      · simp only [fstOcc, if_neg hc, List.length_cons]
        exact Nat.succ_lt_succ (ih h2)

/-- Folding the counting step keeps the key sequence equal to the set of
categories seen so far, listed in first-encounter order. -/
theorem foldl_bump_keys (cs : List String) : ∀ (ctx : List String) (m : List (String × Nat)),
    (∀ k, k ∈ m.map Prod.fst ↔ k ∈ ctx) →
    ((m.map Prod.fst).Pairwise (fun a b => fstOcc ctx a < fstOcc ctx b)) →
    (∀ k, k ∈ (cs.foldl bump m).map Prod.fst ↔ k ∈ ctx ++ cs)
    ∧ ((cs.foldl bump m).map Prod.fst).Pairwise
        (fun a b => fstOcc (ctx ++ cs) a < fstOcc (ctx ++ cs) b) := by
  induction cs with
  | nil =>
    intro ctx m hmem hpw
    constructor
    · intro k
      simpa using hmem k
    · simpa using hpw
  | cons c cs ih =>
    intro ctx m hmem hpw
    have hctx : ctx ++ c :: cs = (ctx ++ [c]) ++ cs := by simp
    have hfold : List.foldl bump m (c :: cs) = List.foldl bump (bump m c) cs := rfl
    rw [hctx, hfold]
    by_cases hc : c ∈ m.map Prod.fst
    · have heq := bump_map_fst_of_mem m c hc
      have hcc : c ∈ ctx := (hmem c).mp hc
      apply ih (ctx ++ [c]) (bump m c)
      · intro k
        rw [heq, hmem k]
        simp only [List.mem_append, List.mem_singleton]
        constructor
        · exact Or.inl
        · rintro (hk | rfl)
          · exact hk
          · exact hcc
      · rw [heq]
        apply hpw.imp_of_mem
        intro a b ha hb hab
        have ha2 : a ∈ ctx := (hmem a).mp ha
        have hb2 : b ∈ ctx := (hmem b).mp hb
        rw [fstOcc_append_left ctx [c] a ha2, fstOcc_append_left ctx [c] b hb2]
        exact hab
    · have heq := bump_of_not_mem m c hc
      have hcnot : c ∉ ctx := fun hcc => hc ((hmem c).mpr hcc)
      apply ih (ctx ++ [c]) (bump m c)
      · intro k
        rw [heq]
        simp only [List.map_append, List.mem_append, List.map_cons, List.map_nil,
          List.mem_singleton, List.mem_cons, List.not_mem_nil, or_false]
        rw [hmem k]
      · rw [heq, List.map_append]
        apply List.pairwise_append.mpr
        refine ⟨?_, ?_, ?_⟩
        · apply hpw.imp_of_mem
          intro a b ha hb hab
          have ha2 : a ∈ ctx := (hmem a).mp ha
          have hb2 : b ∈ ctx := (hmem b).mp hb
          rw [fstOcc_append_left ctx [c] a ha2, fstOcc_append_left ctx [c] b hb2]
          exact hab
        · simp
        · intro a ha b hb
          simp only [List.map_cons, List.map_nil, List.mem_singleton] at hb
          rw [hb]
          have ha2 : a ∈ ctx := (hmem a).mp ha
          rw [fstOcc_append_left ctx [c] a ha2,
            fstOcc_append_not_mem ctx [c] c hcnot]
          have h1 : fstOcc ctx a < ctx.length := fstOcc_lt_length ctx a ha2
          have h2 : fstOcc [c] c = 0 := by simp [fstOcc]
          omega

/-- The frequency fold over rows equals the fold over the category list. -/
theorem categoryCounts_eq_foldl (data : List (List String)) (idx : Nat) :
    categoryCounts data idx = (cats data idx).foldl bump [] := by
  unfold categoryCounts cats
  rw [List.foldl_map]

/-- C8 counterexample: the one-column table with cells x, x, 9, 2 has no
numeric column, so the category branch runs; the categories 9 and 2 tie at
count one with 9 encountered first, yet the chart lists 2 before 9: the
enumeration of Object.entries lists canonical integer keys in ascending
numeric order before insertion order, so this tie is not broken by first
encounter. -/
theorem c8_counterexample :
    numericColumns [["x"], ["x"], ["9"], ["2"]] ["h"] = []
    ∧ categoryCounts [["x"], ["x"], ["9"], ["2"]] 0 = [("x", 2), ("9", 1), ("2", 1)]
    ∧ topCategories [["x"], ["x"], ["9"], ["2"]] 0 = [("x", 2), ("2", 1), ("9", 1)]
    ∧ (sortByCountDesc (categoryCounts [["x"], ["x"], ["9"], ["2"]] 0)).take 10
      = [("x", 2), ("9", 1), ("2", 1)]
    ∧ topCategories [["x"], ["x"], ["9"], ["2"]] 0
      ≠ (sortByCountDesc (categoryCounts [["x"], ["x"], ["9"], ["2"]] 0)).take 10
    ∧ generateCharts [["x"], ["x"], ["9"], ["2"]] ["h"]
      = some [.bar "h" [("x", 2), ("2", 1), ("9", 1)]] := by
  exact ⟨rfl, rfl, rfl, rfl, by decide, rfl⟩

/-- C8 amended: frequency counting maps each row's category cell (empty cells
under the Unknown bucket) to its count, and the top 10 are taken by
descending count with ties in Object.entries enumeration order; when no
category value is a canonical array-index string that order is the insertion
order, so the ties fall back to first encounter in the data. -/
theorem c8_amended_tie_order : ∀ (data : List (List String)) (idx : Nat),
    (∀ p ∈ categoryCounts data idx, isArrayIndexKey p.1 = false) →
    topCategories data idx = (sortByCountDesc (categoryCounts data idx)).take 10
    ∧ (topCategories data idx).Pairwise (fun a b =>
        b.2 < a.2 ∨ (a.2 = b.2 ∧ fstOcc (cats data idx) a.1 < fstOcc (cats data idx) b.1)) := by
  intro data idx h
  have hjs : jsEntries (categoryCounts data idx) = categoryCounts data idx := by
    unfold jsEntries
    rw [List.filter_eq_nil_iff.mpr (fun p hp => by simp [h p hp]),
      List.filter_eq_self.mpr (fun p hp => by simp [h p hp])]
    rfl
  have htop : topCategories data idx = (sortByCountDesc (categoryCounts data idx)).take 10 := by
    unfold topCategories
    rw [hjs]
  refine ⟨htop, ?_⟩
  rw [htop]
  have hkeys := (foldl_bump_keys (cats data idx) [] []
    (by simp) (by simp)).2
  rw [← categoryCounts_eq_foldl] at hkeys
  simp only [List.nil_append] at hkeys
  have hpairs : (categoryCounts data idx).Pairwise
      (fun p q => fstOcc (cats data idx) p.1 < fstOcc (cats data idx) q.1) :=
    (List.pairwise_map
      (R := fun a b => fstOcc (cats data idx) a < fstOcc (cats data idx) b)).mp hkeys
  exact List.Pairwise.sublist (List.take_sublist 10 _)
    (sortByCountDesc_pairwise _ _ hpairs)

/-- Witness for C8 amended on a table with no integer-like categories. -/
theorem c8_amended_tie_order_witness :
    topCategories [["b"], ["a"], ["b"]] 0
      = (sortByCountDesc (categoryCounts [["b"], ["a"], ["b"]] 0)).take 10 :=
  (c8_amended_tie_order [["b"], ["a"], ["b"]] 0 (by decide)).1
